import Mathlib

/-!
Verification of `src/sql_gen_flatten_json_cols.py`.

The script queries a BigQuery table for its JSON-typed columns, samples one
non-null value per JSON column, decodes it with `json.loads` and collects the
top-level keys, unions those keys with all declared column names, sorts the
union, renames exact duplicates by appending `_<counter>`, and emits
`SELECT <columns> FROM `project.dataset.table`;`, which the module entry code
writes to `<table_id>_flattened.sql`.

The warehouse and the JSON decoder are external effects; they are modelled as
an oracle (`Env`) recording the responses one run observes: the rows of the
two `INFORMATION_SCHEMA.COLUMNS` queries, the single sampled row per column
(`none` when the `LIMIT 1` query returns no rows), and the behaviour of
`json.loads` on the sampled payload (`none` when it raises). Given that
oracle, every step of the script is translated directly below.
-/

/-- A decoded JSON document value, as produced by a successful `json.loads`. -/
inductive Json where
  | null : Json
  | bool (b : Bool) : Json
  | num (n : Int) : Json
  | str (s : String) : Json
  | arr (elems : List Json) : Json
  | obj (fields : List (String × Json)) : Json

/-- The responses the warehouse and the JSON decoder give to one run:
`jsonCols` is the row list of the `data_type = 'JSON'` catalog query
(line 39-47), `sampleRow c` is the value of the single row returned by the
`SELECT c ... WHERE c IS NOT NULL LIMIT 1` query (`none` when that query
returns no rows, lines 54-63), `decode` is `json.loads` (`none` when it
raises, line 72), and `allColumns` is the row list of the unfiltered catalog
query (lines 77-85). -/
structure Env where
  jsonCols : List String
  sampleRow : String → Option String
  decode : String → Option Json
  allColumns : List String

/-- `list(json_data.keys())` (line 73): the top-level keys of a decoded
document, in order; `none` models the `AttributeError` raised when the decoded
value is not a dict. -/
def getKeys : Json → Option (List String)
  | .obj fields => some (fields.map Prod.fst)
  | _ => none

/-- One iteration of the sampling loop (lines 53-74) for a single column:
`some []` when the sample query returns no rows (the `continue` on line 67),
`none` when `json.loads` raises (line 72) or the decoded value has no keys,
and otherwise the list of top-level keys. -/
def sampleKeys (env : Env) (col : String) : Option (List String) :=
  match env.sampleRow col with
  | none => some []
  | some s =>
    match env.decode s with
    | none => none
    | some j => getKeys j

/-- The whole sampling loop (lines 50-74): `new_columns` accumulates the keys
of each JSON column in iteration order; any raised exception aborts the
whole run (`none`). -/
def collectNewColumns (env : Env) : List String → Option (List String)
  | [] => some []
  | col :: rest =>
    match sampleKeys env col with
    | none => none
    | some ks =>
      match collectNewColumns env rest with
      | none => none
      | some tail => some (ks ++ tail)

/-- The duplicate-renaming loop (lines 91-99). `full` is the whole
`combined_columns` list (Python's `combined_columns.count(col)` counts in the
full list), `seen` is the dict mapping a name to its counter, with `0`
standing for "key absent". Python formats the counter with `str`, whose
decimal rendering is `Nat.repr`. -/
def renameDupsAux (full : List String) (seen : String → Nat) : List String → List String
  | [] => []
  | col :: rest =>
    if 1 < full.count col ∧ seen col ≠ 0 then
      (col ++ "_" ++ Nat.repr (seen col + 1)) ::
        renameDupsAux full (fun c => if c = col then seen col + 1 else seen c) rest
    else
      col :: renameDupsAux full (fun c => if c = col then 1 else seen c) rest

/-- Lines 91-99 applied to `combined_columns`: start with an empty dict and
walk the list once. -/
def renameDups (combined : List String) : List String :=
  renameDupsAux combined (fun _ => 0) combined

/-- Python's string comparison: lexicographic over the sequence of code
points. `String.data` is that sequence (`Char.val` is the code point) and
`List Char` carries the corresponding lexicographic order. -/
def strLeData (a b : String) : Prop := a.data ≤ b.data

instance : DecidableRel strLeData :=
  fun a b => inferInstanceAs (Decidable (a.data ≤ b.data))

/-- Line 88: `combined_columns = sorted(all_columns_in_table + new_columns)`.
Python's `sorted` over a total order returns the unique sorted permutation of
its input, realised here by insertion sort over the code-point order. -/
def combined_columns_of (env : Env) (new_columns : List String) : List String :=
  (env.allColumns ++ new_columns).insertionSort strLeData

/-- The `final_columns` list of lines 88-99 for one run, `none` when the
sampling loop raised. -/
def finalColumnsOpt (env : Env) : Option (List String) :=
  match collectNewColumns env env.jsonCols with
  | none => none
  | some nc => some (renameDups (combined_columns_of env nc))

/-- `construct_flattened_sql` (lines 34-103): the returned statement, `none`
when an exception propagates out of the sampling loop. -/
def construct_flattened_sql (env : Env) (project_id dataset_id table_id : String) :
    Option String :=
  match finalColumnsOpt env with
  | none => none
  | some final_columns =>
    some ("SELECT " ++ String.intercalate ", " final_columns ++ " FROM `" ++
      project_id ++ "." ++ dataset_id ++ "." ++ table_id ++ "`;")

/-- Line 114: `file_name = f"{table_id}_flattened.sql"`. -/
def file_name (table_id : String) : String :=
  table_id ++ "_flattened.sql"

/-- `open(file_name, 'w')` followed by `file.write(content)`: mode `'w'`
truncates, so the named entry is replaced whatever it held before. The file
system is a map from names to contents. -/
def fsWrite (fs : String → Option String) (nm content : String) :
    String → Option String :=
  fun q => if q = nm then some content else fs q

/-- The module entry code (lines 110-116): build the statement and write it to
`<table_id>_flattened.sql`; an uncaught exception terminates the process
before the `open`, leaving the file system untouched. -/
def runEntry (env : Env) (project_id dataset_id table_id : String)
    (fs : String → Option String) : String → Option String :=
  match construct_flattened_sql env project_id dataset_id table_id with
  | none => fs
  | some sql_string => fsWrite fs (file_name table_id) sql_string

/-- Reference form of the renaming loop used in the proofs below: `pre` is the
already-processed prefix, and the output for the next name depends only on how
often it occurred in `pre`. `renameDupsAux_eq_expected` shows the loop
computes this. -/
def expectedRename (pre : List String) : List String → List String
  | [] => []
  | c :: rest =>
    (if pre.count c = 0 then c else c ++ "_" ++ Nat.repr (pre.count c + 1)) ::
      expectedRename (pre ++ [c]) rest

/-- The renaming loop maintains `seen c = number of occurrences of `c` in the
processed prefix`: with that invariant the loop computes `expectedRename`. -/
lemma renameDupsAux_eq_expected (l : List String) :
    ∀ (pre : List String) (seen : String → Nat), (∀ c, seen c = pre.count c) →
      renameDupsAux (pre ++ l) seen l = expectedRename pre l := by
  induction l with
  | nil => intro pre seen _; rfl
  | cons c rest ih =>
    intro pre seen h
    have happ : (pre ++ [c]) ++ rest = pre ++ c :: rest := by simp
    by_cases hc : pre.count c = 0
    · have hcond : ¬ (1 < (pre ++ c :: rest).count c ∧ seen c ≠ 0) := by
        rintro ⟨-, h2⟩
        exact h2 (by rw [h c, hc])
      have hseen : ∀ d, (if d = c then 1 else seen d) = (pre ++ [c]).count d := by
        intro d
        by_cases hd : d = c
        · subst hd; simp [List.count_append, hc]
        · simp [hd, h d, List.count_append, List.count_singleton,
            Ne.symm hd]
      have htail := ih (pre ++ [c]) _ (fun d => hseen d)
      rw [happ] at htail
      simp only [renameDupsAux, expectedRename, if_neg hcond, if_pos hc, htail]
    · have hcount : 1 < (pre ++ c :: rest).count c := by
        have h1 : 1 ≤ pre.count c := Nat.one_le_iff_ne_zero.mpr hc
        have h2 : (c :: rest).count c = rest.count c + 1 := by
          simp [List.count_cons]
        rw [List.count_append]
        omega
      have hcond : 1 < (pre ++ c :: rest).count c ∧ seen c ≠ 0 := by
        refine ⟨hcount, ?_⟩
        rw [h c]; exact hc
      have hseen : ∀ d, (if d = c then seen c + 1 else seen d) = (pre ++ [c]).count d := by
        intro d
        by_cases hd : d = c
        · subst hd; simp [List.count_append, h d]
        · simp [hd, h d, List.count_append, List.count_singleton,
            Ne.symm hd]
      have htail := ih (pre ++ [c]) _ (fun d => hseen d)
      rw [happ] at htail
      rw [h c] at htail
      simp only [renameDupsAux, expectedRename, h c]
      rw [if_pos ⟨hcount, hc⟩, if_neg hc, htail]

/-- The renaming pass is `expectedRename` started from an empty prefix. -/
lemma renameDups_eq_expected (l : List String) : renameDups l = expectedRename [] l := by
  have h := renameDupsAux_eq_expected l [] (fun _ => 0) (fun c => by simp)
  simpa [renameDups] using h

lemma expectedRename_length (l : List String) :
    ∀ pre, (expectedRename pre l).length = l.length := by
  induction l with
  | nil => intro pre; rfl
  | cons c rest ih => intro pre; simp [expectedRename, ih]

/-- The renaming pass emits exactly one name per input name. -/
lemma renameDups_length (l : List String) : (renameDups l).length = l.length := by
  rw [renameDups_eq_expected, expectedRename_length]

lemma expectedRename_eq_self (l : List String) :
    ∀ pre, (∀ c ∈ l, pre.count c = 0) → l.Nodup → expectedRename pre l = l := by
  induction l with
  | nil => intro pre _ _; rfl
  | cons c rest ih =>
    intro pre hzero hnd
    have hc : pre.count c = 0 := hzero c (List.mem_cons_self c rest)
    have hnotmem : c ∉ rest := (List.nodup_cons.mp hnd).1
    have htail : expectedRename (pre ++ [c]) rest = rest := by
      refine ih (pre ++ [c]) ?_ (List.nodup_cons.mp hnd).2
      intro d hd
      have hdc : d ≠ c := fun hdc => hnotmem (hdc ▸ hd)
      simp [List.count_append, hzero d (List.mem_cons_of_mem _ hd),
        List.count_singleton, Ne.symm hdc]
    simp [expectedRename, hc, htail]

/-- On a duplicate-free list the renaming pass changes nothing. -/
lemma renameDups_eq_self (l : List String) (h : l.Nodup) : renameDups l = l := by
  rw [renameDups_eq_expected]
  refine expectedRename_eq_self l [] ?_ h
  intro c _; simp

lemma expectedRename_getElem (l : List String) :
    ∀ (pre : List String) (i : Nat) (c : String), l[i]? = some c →
      (expectedRename pre l)[i]? =
        some (if (pre ++ l.take i).count c = 0 then c
          else c ++ "_" ++ Nat.repr ((pre ++ l.take i).count c + 1)) := by
  induction l with
  | nil => intro pre i c hc; simp at hc
  | cons c0 rest ih =>
    intro pre i c hc
    match i with
    | 0 =>
      have : c0 = c := by simpa using hc
      subst this
      simp [expectedRename]
    | Nat.succ i =>
      have hrest : rest[i]? = some c := by simpa using hc
      have htail := ih (pre ++ [c0]) i c hrest
      have happ : (pre ++ [c0]) ++ rest.take i = pre ++ (c0 :: rest).take (i + 1) := by
        simp
      rw [happ] at htail
      simpa [expectedRename] using htail

/-- `Nat.toDigitsCore` with enough fuel produces the base-10 digits, most
significant first. -/
lemma toDigitsCore_eq_digits (fuel : ℕ) : ∀ (n : ℕ) (acc : List Char), 0 < n → n < fuel →
    Nat.toDigitsCore 10 fuel n acc = ((Nat.digits 10 n).map Nat.digitChar).reverse ++ acc := by
  induction fuel with
  | zero => intro n acc hn hlt; omega
  | succ fuel ih =>
    intro n acc hn hlt
    rw [Nat.digits_def' (by norm_num : (1:ℕ) < 10) hn]
    simp only [Nat.toDigitsCore, List.map_cons, List.reverse_cons]
    by_cases h : n / 10 = 0
    · rw [if_pos h, h]
      simp
    · rw [if_neg h]
      have hpos : 0 < n / 10 := Nat.pos_of_ne_zero h
      have hlt' : n / 10 < fuel := by
        have hd : n / 10 < n := Nat.div_lt_self hn (by norm_num)
        omega
      rw [ih (n / 10) _ hpos hlt']
      simp

lemma natRepr_data (n : ℕ) (hn : 0 < n) :
    (Nat.repr n).data = ((Nat.digits 10 n).map Nat.digitChar).reverse := by
  have h := toDigitsCore_eq_digits (n + 1) n [] hn (Nat.lt_succ_self n)
  simp only [Nat.repr, Nat.toDigits]
  rw [h, List.append_nil]
  rfl

lemma mem_natRepr_isDigit (n : ℕ) : ∀ c ∈ (Nat.repr n).data, c.isDigit := by
  rcases Nat.eq_zero_or_pos n with h0 | hp
  · subst h0
    intro c hc
    have : (Nat.repr 0).data = ['0'] := rfl
    rw [this] at hc
    simp at hc
    subst hc
    decide
  · rw [natRepr_data n hp]
    intro c hc
    rw [List.mem_reverse, List.mem_map] at hc
    obtain ⟨d, hd, rfl⟩ := hc
    have hlt : d < 10 := Nat.digits_lt_base (by norm_num) hd
    have hdig : ∀ d : ℕ, d < 10 → (Nat.digitChar d).isDigit := by decide
    exact hdig d hlt

/-- The decimal numeral of a counter value never contains an underscore. -/
lemma natRepr_no_underscore (n : ℕ) : ('_' : Char) ∉ (Nat.repr n).data := by
  intro h
  exact absurd (mem_natRepr_isDigit n '_' h) (by decide)

lemma digitChar_injOn : ∀ a, a < 10 → ∀ b, b < 10 → Nat.digitChar a = Nat.digitChar b → a = b := by
  decide

lemma map_digitChar_inj : ∀ (l1 l2 : List ℕ), (∀ x ∈ l1, x < 10) → (∀ x ∈ l2, x < 10) →
    l1.map Nat.digitChar = l2.map Nat.digitChar → l1 = l2 := by
  intro l1
  induction l1 with
  | nil =>
    intro l2 _ _ h
    cases l2 with
    | nil => rfl
    | cons b bs => simp at h
  | cons a as ih =>
    intro l2 h1 h2 h
    cases l2 with
    | nil => simp at h
    | cons b bs =>
      simp only [List.map_cons, List.cons.injEq] at h
      have ha : a = b := digitChar_injOn a (h1 a (List.mem_cons_self a as)) b
        (h2 b (List.mem_cons_self b bs)) h.1
      have hrest := ih bs (fun x hx => h1 x (List.mem_cons_of_mem _ hx))
        (fun x hx => h2 x (List.mem_cons_of_mem _ hx)) h.2
      rw [ha, hrest]

/-- Decimal numerals identify the number: `Nat.repr` is injective. -/
lemma natRepr_inj {m n : ℕ} (h : Nat.repr m = Nat.repr n) : m = n := by
  have hd : (Nat.repr m).data = (Nat.repr n).data := by rw [h]
  have hz : (Nat.repr 0).data = ['0'] := rfl
  have key : ∀ k : ℕ, 0 < k → ¬ (Nat.repr k).data = ['0'] := by
    intro k hk hrep
    rw [natRepr_data k hk] at hrep
    have hmap : (Nat.digits 10 k).map Nat.digitChar = ['0'] := by
      have := congrArg List.reverse hrep
      simpa using this
    have hdig : Nat.digits 10 k = [0] := by
      refine map_digitChar_inj _ [0] (fun x hx => Nat.digits_lt_base (by norm_num) hx) ?_ ?_
      · intro x hx; simp at hx; omega
      · simpa using hmap
    have := Nat.ofDigits_digits 10 k
    rw [hdig] at this
    simp [Nat.ofDigits] at this
    omega
  rcases Nat.eq_zero_or_pos m with hm | hm <;> rcases Nat.eq_zero_or_pos n with hn | hn
  · omega
  · exact absurd (by rw [← hd, hm, hz]) (key n hn)
  · exact absurd (by rw [hd, hn, hz]) (key m hm)
  · rw [natRepr_data m hm, natRepr_data n hn] at hd
    have hmap : (Nat.digits 10 m).map Nat.digitChar = (Nat.digits 10 n).map Nat.digitChar := by
      have := congrArg List.reverse hd
      simpa using this
    have hdig : Nat.digits 10 m = Nat.digits 10 n :=
      map_digitChar_inj _ _ (fun x hx => Nat.digits_lt_base (by norm_num) hx)
        (fun x hx => Nat.digits_lt_base (by norm_num) hx) hmap
    have h1 := Nat.ofDigits_digits 10 m
    have h2 := Nat.ofDigits_digits 10 n
    rw [← h1, ← h2, hdig]

/-- Splitting a character list at its first underscore is unambiguous. -/
lemma underscore_split_left : ∀ (a x b y : List Char), ('_' : Char) ∉ a → ('_' : Char) ∉ b →
    a ++ '_' :: x = b ++ '_' :: y → a = b ∧ x = y := by
  intro a
  induction a with
  | nil =>
    intro x b y _ hb h
    cases b with
    | nil =>
      constructor
      · rfl
      · simpa using h
    | cons c bs =>
      exfalso
      simp only [List.nil_append, List.cons_append, List.cons.injEq] at h
      exact hb (h.1 ▸ List.mem_cons_self _ _)
  | cons c as ih =>
    intro x b y ha hb h
    cases b with
    | nil =>
      exfalso
      simp only [List.nil_append, List.cons_append, List.cons.injEq] at h
      exact ha (h.1 ▸ List.mem_cons_self _ _)
    | cons cb bs =>
      simp only [List.cons_append, List.cons.injEq] at h
      obtain ⟨h1, h2⟩ := h
      have ha' : ('_' : Char) ∉ as := fun hm => ha (List.mem_cons_of_mem _ hm)
      have hb' : ('_' : Char) ∉ bs := fun hm => hb (List.mem_cons_of_mem _ hm)
      obtain ⟨hab, hxy⟩ := ih x bs y ha' hb' h2
      exact ⟨by rw [h1, hab], hxy⟩

/-- Splitting a character list at its last underscore is unambiguous. -/
lemma underscore_split_right (a x b y : List Char) (hx : ('_' : Char) ∉ x)
    (hy : ('_' : Char) ∉ y) (h : a ++ '_' :: x = b ++ '_' :: y) : a = b ∧ x = y := by
  have h' : x.reverse ++ '_' :: a.reverse = y.reverse ++ '_' :: b.reverse := by
    have hr := congrArg List.reverse h
    simpa [List.reverse_append, List.append_assoc] using hr
  have hx' : ('_' : Char) ∉ x.reverse := by simpa using hx
  have hy' : ('_' : Char) ∉ y.reverse := by simpa using hy
  obtain ⟨hxy, hab⟩ := underscore_split_left x.reverse a.reverse y.reverse b.reverse hx' hy' h'
  constructor
  · rw [← List.reverse_reverse a, hab, List.reverse_reverse]
  · rw [← List.reverse_reverse x, hxy, List.reverse_reverse]

/-- A renamed column `base ++ "_" ++ numeral` determines its base and its
numeral: the numeral part holds no underscore, so the split at the last
underscore is unique. -/
lemma suffix_split (s t u v : String) (ht : ('_' : Char) ∉ t.data)
    (hv : ('_' : Char) ∉ v.data) (h : s ++ "_" ++ t = u ++ "_" ++ v) : s = u ∧ t = v := by
  have hd := congrArg String.data h
  rw [String.data_append, String.data_append, String.data_append, String.data_append] at hd
  have hu : ("_" : String).data = ['_'] := rfl
  rw [hu] at hd
  have hd' : s.data ++ '_' :: t.data = u.data ++ '_' :: v.data := by
    simpa [List.append_assoc] using hd
  obtain ⟨h1, h2⟩ := underscore_split_right _ _ _ _ ht hv hd'
  exact ⟨String.ext h1, String.ext h2⟩

/-- Shape of every entry the renaming pass emits: some name `d` of the input,
either bare (first occurrence: no earlier occurrence counted) or suffixed with
the numeral of `m + 1` where `m ≥ 1` counts the occurrences seen before it,
at least those of the already-processed prefix `pre`. -/
lemma mem_expectedRename (l : List String) : ∀ (pre : List String) (out : String),
    out ∈ expectedRename pre l →
    ∃ d m, d ∈ l ∧ pre.count d ≤ m ∧ m < pre.length + l.length ∧
      ((out = d ∧ m = 0) ∨ (out = d ++ "_" ++ Nat.repr (m + 1) ∧ 1 ≤ m)) := by
  induction l with
  | nil => intro pre out h; simp [expectedRename] at h
  | cons c rest ih =>
    intro pre out h
    rw [expectedRename, List.mem_cons] at h
    rcases h with h | h
    · refine ⟨c, pre.count c, List.mem_cons_self c rest, le_refl _, ?_, ?_⟩
      · have := List.count_le_length c pre
        simp only [List.length_cons]
        omega
      · by_cases hc : pre.count c = 0
        · left; rw [if_pos hc] at h; exact ⟨h, hc⟩
        · right; rw [if_neg hc] at h; exact ⟨h, Nat.one_le_iff_ne_zero.mpr hc⟩
    · obtain ⟨d, m, hd, hcount, hlt, hshape⟩ := ih (pre ++ [c]) out h
      refine ⟨d, m, List.mem_cons_of_mem _ hd, ?_, ?_, hshape⟩
      · have : pre.count d ≤ (pre ++ [c]).count d := by
          rw [List.count_append]; omega
        omega
      · simp only [List.length_append, List.length_singleton, List.length_cons,
          List.length_nil] at hlt ⊢
        omega

/-- If no input name collides with a name the pass could synthesize (a name of
the list followed by `_` and the numeral of some `k` with
`2 ≤ k ≤` number of processed names), the emitted list has no duplicates. -/
lemma expectedRename_nodup (l : List String) : ∀ (pre : List String),
    (∀ d ∈ l, ∀ c ∈ l, ∀ k, k ≤ pre.length + l.length → 2 ≤ k →
      d ≠ c ++ "_" ++ Nat.repr k) →
    (expectedRename pre l).Nodup := by
  induction l with
  | nil => intro pre _; exact List.nodup_nil
  | cons c rest ih =>
    intro pre hP
    rw [expectedRename]
    refine List.nodup_cons.mpr ⟨?_, ?_⟩
    · intro hmem
      obtain ⟨d, m, hd, hcountd, hlt, hshape⟩ := mem_expectedRename rest (pre ++ [c]) _ hmem
      have hcc : (pre ++ [c]).count c = pre.count c + 1 := by
        simp [List.count_append]
      by_cases hc : pre.count c = 0
      · rw [if_pos hc] at hshape
        rcases hshape with ⟨hout, hm0⟩ | ⟨hout, hm1⟩
        · subst hout
          rw [hcc] at hcountd
          omega
        · have h2k : 2 ≤ m + 1 := by omega
          have hbk : m + 1 ≤ pre.length + (c :: rest).length := by
            simp only [List.length_append, List.length_singleton, List.length_nil,
              List.length_cons] at hlt ⊢
            omega
          exact hP c (List.mem_cons_self c rest) d (List.mem_cons_of_mem _ hd)
            (m + 1) hbk h2k hout
      · rw [if_neg hc] at hshape
        have hk2 : 2 ≤ pre.count c + 1 := by omega
        have hkb : pre.count c + 1 ≤ pre.length + (c :: rest).length := by
          have := List.count_le_length c pre
          simp only [List.length_cons]
          omega
        rcases hshape with ⟨hout, hm0⟩ | ⟨hout, hm1⟩
        · exact hP d (List.mem_cons_of_mem _ hd) c (List.mem_cons_self c rest)
            (pre.count c + 1) hkb hk2 hout.symm
        · obtain ⟨hcd, hrepr⟩ := suffix_split c (Nat.repr (pre.count c + 1)) d
            (Nat.repr (m + 1)) (natRepr_no_underscore _) (natRepr_no_underscore _) hout
          have hm : pre.count c + 1 = m + 1 := natRepr_inj hrepr
          rw [← hcd, hcc] at hcountd
          omega
    · refine ih (pre ++ [c]) ?_
      intro d hd c' hc' k hk h2
      refine hP d (List.mem_cons_of_mem _ hd) c' (List.mem_cons_of_mem _ hc') k ?_ h2
      simp only [List.length_append, List.length_singleton, List.length_nil,
        List.length_cons] at hk ⊢
      omega

/-- Distinctness of the renamed list under the no-collision precondition. -/
lemma renameDups_nodup (l : List String)
    (hP : ∀ d ∈ l, ∀ c ∈ l, ∀ k, k ≤ l.length → 2 ≤ k → d ≠ c ++ "_" ++ Nat.repr k) :
    (renameDups l).Nodup := by
  rw [renameDups_eq_expected]
  refine expectedRename_nodup l [] ?_
  simpa using hP

instance : IsTotal String strLeData where
  total a b := le_total a.data b.data

instance : IsTrans String strLeData where
  trans _ _ _ hab hbc := le_trans hab hbc

lemma finalColumnsOpt_eq (env : Env) (nc : List String)
    (h : collectNewColumns env env.jsonCols = some nc) :
    finalColumnsOpt env = some (renameDups (combined_columns_of env nc)) := by
  rw [finalColumnsOpt, h]

/-- One raised `json.loads` exception anywhere in the loop aborts the whole
collection, whatever the other columns contributed. -/
lemma collectNewColumns_fail (env : Env) : ∀ (cols : List String) (col : String),
    col ∈ cols → sampleKeys env col = none → collectNewColumns env cols = none := by
  intro cols
  induction cols with
  | nil => intro col h _; simp at h
  | cons c rest ih =>
    intro col hmem hfail
    rw [List.mem_cons] at hmem
    rw [collectNewColumns]
    rcases hmem with rfl | hmem
    · rw [hfail]
    · rcases hk : sampleKeys env c with - | ks
      · rfl
      · rw [ih col hmem hfail]

/-- The end-to-end scenario of the spec: table `orders` with declared columns
`id, created_at, props`, where `props` is JSON-typed and its sampled document
decodes to keys `status` and `id`. -/
def envOrders : Env where
  jsonCols := ["props"]
  sampleRow := fun c => if c = "props" then some "sampled-doc" else none
  decode := fun s =>
    if s = "sampled-doc" then
      some (Json.obj [("status", Json.str "open"), ("id", Json.num 7)])
    else none
  allColumns := ["id", "created_at", "props"]

/-- A table with no JSON columns at all. -/
def envPlain : Env where
  jsonCols := []
  sampleRow := fun _ => none
  decode := fun _ => none
  allColumns := ["b", "a"]

/-- A table whose declared column `a_2` collides with the name synthesized for
the duplicate created by the discovered field `a`. -/
def envCollide : Env where
  jsonCols := ["j"]
  sampleRow := fun c => if c = "j" then some "payload" else none
  decode := fun s => if s = "payload" then some (Json.obj [("a", Json.num 1)]) else none
  allColumns := ["a", "a_2"]

/-- A sampled document whose values are themselves nested structures. -/
def envNested : Env where
  jsonCols := ["doc"]
  sampleRow := fun c => if c = "doc" then some "nested-doc" else none
  decode := fun s =>
    if s = "nested-doc" then
      some (Json.obj [("plain", Json.num 1),
        ("nested", Json.obj [("inner", Json.num 2)]),
        ("items", Json.arr [Json.num 3])])
    else none
  allColumns := ["doc"]

/-- Two JSON columns: sampling `good` succeeds, decoding `bad`'s payload
raises. -/
def envFail : Env where
  jsonCols := ["good", "bad"]
  sampleRow := fun c =>
    if c = "good" then some "ok-payload"
    else if c = "bad" then some "bad-payload" else none
  decode := fun s => if s = "ok-payload" then some (Json.obj [("k", Json.null)]) else none
  allColumns := ["good", "bad", "x"]

/-- An empty file system, for the entry-code theorems. -/
def fsEmpty : String → Option String := fun _ => none

/-- Claim C1, counterexample: on the sorted input `["id","status","status"]`
the renaming pass does not emit `status_1` for the second occurrence. Lines
94-96 first increment the counter (from 1 to 2) and then format it, so the
suffix starts at `_2`, not at `_1`. -/
theorem rename_second_occurrence_ne_suffix_one :
    renameDups ["id", "status", "status"] ≠ ["id", "status", "status_1"] := by decide

/-- Claim C1, amended: the first occurrence of a repeated name is emitted
bare and the second occurrence is emitted with suffix `_2`; the suffix number
is the count of occurrences of that exact name seen so far including the
current one (one more than the count of prior occurrences). For the sorted
input `["id","status","status"]` the final list is
`["id","status","status_2"]`. -/
theorem rename_second_occurrence_suffix_two :
    renameDups ["id", "status", "status"] = ["id", "status", "status_2"] := by decide

/-- Claim C2: the renaming pass walks the sorted sequence once with a
per-name counter seeded at 1 on first sight; a name that is repeated in the
full sequence and already recorded gets the counter incremented and is
emitted with the new counter value as suffix, otherwise count 1 is recorded
and the name is emitted bare. Equivalently, position `i` holding name `c`
is emitted bare when `c`'s occurrence count up to and including `i` is 1
(first occurrence of any repeated or unique name), and as
`c_k` where `k` is that occurrence count (= new counter value) otherwise. -/
theorem rename_counter_gives_occurrence_index (l : List String) (i : Nat) (c : String)
    (hc : l[i]? = some c) :
    (renameDups l)[i]? =
      some (if (l.take (i + 1)).count c = 1 then c
        else c ++ "_" ++ Nat.repr ((l.take (i + 1)).count c)) := by
  have hgd := expectedRename_getElem l [] i c hc
  rw [List.nil_append] at hgd
  have htk : l.take (i + 1) = l.take i ++ [c] := by rw [List.take_succ, hc]; rfl
  have hcount : (l.take (i + 1)).count c = (l.take i).count c + 1 := by
    rw [htk, List.count_append]
    simp
  rw [renameDups_eq_expected, hgd, hcount]
  by_cases h0 : (l.take i).count c = 0
  · rw [if_pos h0, if_pos (by omega)]
  · rw [if_neg h0, if_neg (by omega)]

/-- Claim C2, witness: the second `a` of `["a","a","b"]` is emitted with the
new counter value 2. -/
theorem rename_counter_gives_occurrence_index_check :
    (renameDups ["a", "a", "b"])[1]? =
      some (if ((["a", "a", "b"] : List String).take 2).count "a" = 1 then "a"
        else "a" ++ "_" ++ Nat.repr (((["a", "a", "b"] : List String).take 2).count "a")) :=
  rename_counter_gives_occurrence_index ["a", "a", "b"] 1 "a" (by decide)

/-- Claim C3, counterexample: with declared columns `a`, `a_2` and one
discovered field `a`, the final list is `["a","a_2","a_2"]` — the name
`a_2` occurs twice, so the final list is not always duplicate-free. -/
theorem final_columns_duplicate_collision :
    finalColumnsOpt envCollide = some ["a", "a_2", "a_2"] ∧
      ¬ (["a", "a_2", "a_2"] : List String).Nodup := by
  constructor
  · decide
  · decide

/-- Claim C3, amended: the final column list has pairwise-distinct entries
provided no combined name (declared column or discovered field) equals
another combined name followed by `_` and the decimal numeral of a counter
value `k` with `2 ≤ k ≤` the number of combined names — i.e. provided no
input name collides with a name the renaming pass could synthesize. (The
counterexample shows the restriction is needed.) -/
theorem final_columns_nodup_of_no_collision (env : Env) (nc fc : List String)
    (h1 : collectNewColumns env env.jsonCols = some nc)
    (h2 : finalColumnsOpt env = some fc)
    (hP : ∀ d ∈ env.allColumns ++ nc, ∀ c ∈ env.allColumns ++ nc,
      ∀ k, k ≤ (env.allColumns ++ nc).length → 2 ≤ k → d ≠ c ++ "_" ++ Nat.repr k) :
    fc.Nodup := by
  rw [finalColumnsOpt_eq env nc h1] at h2
  have hfc : fc = renameDups (combined_columns_of env nc) := (Option.some.inj h2).symm
  subst hfc
  refine renameDups_nodup _ ?_
  have hperm : (combined_columns_of env nc).Perm (env.allColumns ++ nc) :=
    List.perm_insertionSort _ _
  intro d hd c hc k hk h2k
  refine hP d (hperm.mem_iff.mp hd) c (hperm.mem_iff.mp hc) k ?_ h2k
  rw [← hperm.length_eq]
  exact hk

/-- Claim C3, witness: in the `orders` scenario no declared or discovered
name looks like a synthesized one, and the final list
`["created_at","id","id_2","props","status"]` is duplicate-free. -/
theorem final_columns_nodup_of_no_collision_check :
    (["created_at", "id", "id_2", "props", "status"] : List String).Nodup :=
  final_columns_nodup_of_no_collision envOrders ["status", "id"]
    ["created_at", "id", "id_2", "props", "status"]
    (by decide) (by decide) (by decide)

/-- Claim C4: when the catalog reports zero JSON columns the final column
list is the sorted list of the declared column names (their unique sorted
permutation under the code-point order), no renaming happens when the
declared names hold no duplicates, and the emitted statement selects exactly
those columns. -/
theorem no_json_columns_sorted_identity (env : Env) (p d t : String)
    (h0 : env.jsonCols = []) (h1 : env.allColumns.Nodup) :
    finalColumnsOpt env = some (env.allColumns.insertionSort strLeData) ∧
      (env.allColumns.insertionSort strLeData).Perm env.allColumns ∧
      List.Sorted strLeData (env.allColumns.insertionSort strLeData) ∧
      construct_flattened_sql env p d t =
        some ("SELECT " ++
          String.intercalate ", " (env.allColumns.insertionSort strLeData) ++
          " FROM `" ++ p ++ "." ++ d ++ "." ++ t ++ "`;") := by
  have hperm := List.perm_insertionSort strLeData env.allColumns
  have hnd : (env.allColumns.insertionSort strLeData).Nodup := hperm.nodup_iff.mpr h1
  have hcomb : combined_columns_of env [] = env.allColumns.insertionSort strLeData := by
    rw [combined_columns_of, List.append_nil]
  have hfc : finalColumnsOpt env = some (env.allColumns.insertionSort strLeData) := by
    rw [finalColumnsOpt, h0]
    show some (renameDups (combined_columns_of env [])) = _
    rw [hcomb, renameDups_eq_self _ hnd]
  refine ⟨hfc, hperm, List.sorted_insertionSort strLeData env.allColumns, ?_⟩
  rw [construct_flattened_sql, hfc]

/-- Claim C4, witness: for declared columns `["b","a"]` and no JSON columns
the pipeline emits exactly `SELECT a, b FROM `p.d.t`;`. -/
theorem no_json_columns_sorted_identity_check :
    finalColumnsOpt envPlain = some (envPlain.allColumns.insertionSort strLeData) ∧
      (envPlain.allColumns.insertionSort strLeData).Perm envPlain.allColumns ∧
      List.Sorted strLeData (envPlain.allColumns.insertionSort strLeData) ∧
      construct_flattened_sql envPlain "p" "d" "t" =
        some ("SELECT " ++
          String.intercalate ", " (envPlain.allColumns.insertionSort strLeData) ++
          " FROM `" ++ "p" ++ "." ++ "d" ++ "." ++ "t" ++ "`;") :=
  no_json_columns_sorted_identity envPlain "p" "d" "t" rfl (by decide)

/-- Claim C5: a JSON column whose sample is decoded successfully contributes
exactly the top-level keys of the one decoded document, in document order;
nothing below the top level is inspected, so nested values contribute only
their own top-level key. -/
theorem sampled_keys_are_top_level (env : Env) (col s : String)
    (fields : List (String × Json))
    (h1 : env.sampleRow col = some s)
    (h2 : env.decode s = some (Json.obj fields)) :
    sampleKeys env col = some (fields.map Prod.fst) := by
  simp only [sampleKeys, h1, h2, getKeys]

/-- Claim C5, witness: a document with a nested object and an array under two
of its keys contributes exactly its three top-level key names. -/
theorem sampled_keys_are_top_level_check :
    sampleKeys envNested "doc" = some ["plain", "nested", "items"] :=
  sampled_keys_are_top_level envNested "doc" "nested-doc"
    [("plain", Json.num 1), ("nested", Json.obj [("inner", Json.num 2)]),
      ("items", Json.arr [Json.num 3])]
    (by decide) rfl

/-- Claim C6: a JSON column whose sampling query returns zero rows
contributes zero field names and does not fail; the loop continues with the
remaining columns as if the column were absent. -/
theorem no_sample_row_skips_column (env : Env) (col : String) (rest : List String)
    (h : env.sampleRow col = none) :
    sampleKeys env col = some [] ∧
      collectNewColumns env (col :: rest) = collectNewColumns env rest := by
  have hk : sampleKeys env col = some [] := by rw [sampleKeys, h]
  refine ⟨hk, ?_⟩
  rw [collectNewColumns, hk]
  rcases collectNewColumns env rest with - | tail <;> simp

/-- Claim C6, witness: a column with no sample row contributes nothing and
the loop proceeds. -/
theorem no_sample_row_skips_column_check :
    sampleKeys envPlain "c" = some [] ∧
      collectNewColumns envPlain ["c", "e"] = collectNewColumns envPlain ["e"] :=
  no_sample_row_skips_column envPlain "c" ["e"] rfl

/-- Claim C7: a decode failure on any sampled value is fatal: the whole run
returns no statement — even when other columns were sampled and decoded
successfully — and the entry code writes no file, leaving the file system
exactly as it was. -/
theorem decode_failure_aborts_run (env : Env) (p d t : String)
    (fs : String → Option String) (col s : String)
    (h1 : col ∈ env.jsonCols)
    (h2 : env.sampleRow col = some s)
    (h3 : env.decode s = none) :
    construct_flattened_sql env p d t = none ∧ runEntry env p d t fs = fs := by
  have hk : sampleKeys env col = none := by simp only [sampleKeys, h2, h3]
  have hc : collectNewColumns env env.jsonCols = none :=
    collectNewColumns_fail env _ col h1 hk
  have hf : finalColumnsOpt env = none := by rw [finalColumnsOpt, hc]
  have hcs : construct_flattened_sql env p d t = none := by
    rw [construct_flattened_sql, hf]
  exact ⟨hcs, by rw [runEntry, hcs]⟩

/-- Claim C7, witness: `good` decodes fine, `bad` raises — the run aborts
and the (empty) file system is untouched. -/
theorem decode_failure_aborts_run_check :
    construct_flattened_sql envFail "p" "d" "t" = none ∧
      runEntry envFail "p" "d" "t" fsEmpty = fsEmpty :=
  decode_failure_aborts_run envFail "p" "d" "t" fsEmpty "bad" "bad-payload"
    (by decide) rfl rfl

/-- Claim C8: the emitted statement is the final column list joined with
`", "` inside the fixed template `SELECT <columns> FROM <table>;`, where the
table is the three identifiers joined by `.` and backtick-quoted as one unit;
the entry code writes it to `<table_id>_flattened.sql`, and afterwards that
file holds exactly the statement whatever it held before (mode `'w'`
overwrites). -/
theorem emitted_statement_and_file (env : Env) (p d t : String)
    (fc : List String) (fs : String → Option String)
    (h : finalColumnsOpt env = some fc) :
    construct_flattened_sql env p d t =
        some ("SELECT " ++ String.intercalate ", " fc ++ " FROM `" ++
          (p ++ "." ++ d ++ "." ++ t) ++ "`;") ∧
      runEntry env p d t fs =
        fsWrite fs (t ++ "_flattened.sql")
          ("SELECT " ++ String.intercalate ", " fc ++ " FROM `" ++
            (p ++ "." ++ d ++ "." ++ t) ++ "`;") ∧
      runEntry env p d t fs (t ++ "_flattened.sql") =
        some ("SELECT " ++ String.intercalate ", " fc ++ " FROM `" ++
          (p ++ "." ++ d ++ "." ++ t) ++ "`;") := by
  have hcs : construct_flattened_sql env p d t =
      some ("SELECT " ++ String.intercalate ", " fc ++ " FROM `" ++
        (p ++ "." ++ d ++ "." ++ t) ++ "`;") := by
    rw [construct_flattened_sql, h]
    simp [String.append_assoc]
  refine ⟨hcs, ?_, ?_⟩
  · rw [runEntry, hcs]
    rfl
  · rw [runEntry, hcs]
    show fsWrite fs (file_name t) _ (t ++ "_flattened.sql") = _
    rw [fsWrite, file_name]
    simp

/-- Claim C8, witness: the `orders` scenario writes
`SELECT created_at, id, id_2, props, status FROM `proj.ds.orders`;` to
`orders_flattened.sql`, also over a previously empty file system. -/
theorem emitted_statement_and_file_check :
    construct_flattened_sql envOrders "proj" "ds" "orders" =
        some ("SELECT " ++
          String.intercalate ", " ["created_at", "id", "id_2", "props", "status"] ++
          " FROM `" ++ ("proj" ++ "." ++ "ds" ++ "." ++ "orders") ++ "`;") ∧
      runEntry envOrders "proj" "ds" "orders" fsEmpty =
        fsWrite fsEmpty ("orders" ++ "_flattened.sql")
          ("SELECT " ++
            String.intercalate ", " ["created_at", "id", "id_2", "props", "status"] ++
            " FROM `" ++ ("proj" ++ "." ++ "ds" ++ "." ++ "orders") ++ "`;") ∧
      runEntry envOrders "proj" "ds" "orders" fsEmpty ("orders" ++ "_flattened.sql") =
        some ("SELECT " ++
          String.intercalate ", " ["created_at", "id", "id_2", "props", "status"] ++
          " FROM `" ++ ("proj" ++ "." ++ "ds" ++ "." ++ "orders") ++ "`;") :=
  emitted_statement_and_file envOrders "proj" "ds" "orders"
    ["created_at", "id", "id_2", "props", "status"] fsEmpty (by decide)

/-- Claim C9: the run is a pure function of the three identifiers and the
observed warehouse responses: two runs whose responses agree componentwise
produce the same statement and the same file-system effect. -/
theorem identical_responses_identical_output (e1 e2 : Env) (p d t : String)
    (fs : String → Option String)
    (h1 : e1.jsonCols = e2.jsonCols) (h2 : e1.sampleRow = e2.sampleRow)
    (h3 : e1.decode = e2.decode) (h4 : e1.allColumns = e2.allColumns) :
    construct_flattened_sql e1 p d t = construct_flattened_sql e2 p d t ∧
      runEntry e1 p d t fs = runEntry e2 p d t fs := by
  obtain ⟨j1, s1, dd1, a1⟩ := e1
  obtain ⟨j2, s2, dd2, a2⟩ := e2
  have h1' : j1 = j2 := h1
  have h2' : s1 = s2 := h2
  have h3' : dd1 = dd2 := h3
  have h4' : a1 = a2 := h4
  subst h1'
  subst h2'
  subst h3'
  subst h4'
  exact ⟨rfl, rfl⟩

/-- Claim C9, witness: two runs over the same recorded responses agree. -/
theorem identical_responses_identical_output_check :
    construct_flattened_sql envOrders "proj" "ds" "orders" =
        construct_flattened_sql envOrders "proj" "ds" "orders" ∧
      runEntry envOrders "proj" "ds" "orders" fsEmpty =
        runEntry envOrders "proj" "ds" "orders" fsEmpty :=
  identical_responses_identical_output envOrders envOrders "proj" "ds" "orders"
    fsEmpty rfl rfl rfl rfl

/-- Claim C10: renaming preserves length — one output entry per input entry
for every input of the renaming pass — so the final column list always has
exactly as many entries as declared columns plus discovered fields. -/
theorem final_columns_length_sum (env : Env) (nc fc : List String)
    (h1 : collectNewColumns env env.jsonCols = some nc)
    (h2 : finalColumnsOpt env = some fc) :
    fc.length = env.allColumns.length + nc.length ∧
      ∀ l : List String, (renameDups l).length = l.length := by
  rw [finalColumnsOpt_eq env nc h1] at h2
  have hfc : fc = renameDups (combined_columns_of env nc) := (Option.some.inj h2).symm
  refine ⟨?_, renameDups_length⟩
  rw [hfc, renameDups_length, combined_columns_of,
    (List.perm_insertionSort _ _).length_eq, List.length_append]

/-- Claim C10, witness: 3 declared columns plus 2 discovered fields give 5
final columns. -/
theorem final_columns_length_sum_check :
    (["created_at", "id", "id_2", "props", "status"] : List String).length =
      envOrders.allColumns.length + (["status", "id"] : List String).length :=
  (final_columns_length_sum envOrders ["status", "id"]
    ["created_at", "id", "id_2", "props", "status"] (by decide) (by decide)).1
